import Mathlib

/-!
Shallow embedding of the pi-rl-bot baseline breakout backtester
(`baseline_rules.py` and `backtest.py`).

Timestamps are modelled as minutes since an epoch, always UTC (the code
localizes naive indices to UTC before use).  Prices and pip distances are
modelled as exact rationals.  The environment-derived module constants
(`BUFFER_PIPS`, `SL_PIPS`, …, `SESSION_START`, `SESSION_END`,
`FIRST_WINDOW_MIN`) are collected in a `Config` record and passed
explicitly; session start/end are already converted to minute-of-day, as
`_hhmm_to_minutes` does in the code.
-/

/-- One OHLC bar of the price series, timestamp in minutes since epoch (UTC). -/
structure Bar where
  time : ℕ
  open' : ℚ
  high : ℚ
  low : ℚ
  close : ℚ
deriving DecidableEq, Repr

/-- The env-configurable parameters of `baseline_rules.py`, pip distances as
rationals and the session bounds already in minute-of-day form. -/
structure Config where
  BUFFER_PIPS : ℚ
  SL_PIPS : ℚ
  TP_PIPS : ℚ
  BE_TRIGGER_PIPS : ℚ
  LOCK_PROFIT_PIPS : ℚ
  SESSION_START : ℕ
  SESSION_END : ℕ
  FIRST_WINDOW_MIN : ℕ
deriving DecidableEq, Repr

/-- The `instrument.endswith("_JPY")` test of `pips_to_price`, modelled as a
character-list suffix test (equivalent to `String.endsWith`, in a form the
kernel evaluates). -/
def ends_with_jpy (instrument : String) : Bool :=
  "_JPY".data.isSuffixOf instrument.data

/-- `pips_to_price` from `baseline_rules.py`: pip distance to price distance,
JPY-quoted instruments (identifier suffix `_JPY`) use pip size 0.01, all
others 0.0001. -/
def pips_to_price (pips : ℚ) (instrument : String) : ℚ :=
  if ends_with_jpy instrument then pips * (1 / 100) else pips * (1 / 10000)

/-- The `Trade` dataclass of `baseline_rules.py`. -/
structure Trade where
  time : ℕ
  side : String
  entry : ℚ
  sl : ℚ
  tp : ℚ
  exit : Option ℚ := none
  exit_time : Option ℕ := none
  exit_reason : Option String := none
deriving DecidableEq, Repr

/-- `_in_session`: minute-of-day within `[SESSION_START, SESSION_END]`,
both inclusive. -/
def in_session (cfg : Config) (t : ℕ) : Prop :=
  cfg.SESSION_START ≤ t % 1440 ∧ t % 1440 ≤ cfg.SESSION_END

instance (cfg : Config) (t : ℕ) : Decidable (in_session cfg t) := by
  unfold in_session; infer_instance

/-- `_session_day_key`: the UTC calendar day of a timestamp (the `%Y-%m-%d`
string key becomes the day number). -/
def session_day_key (t : ℕ) : ℕ := t / 1440

/-- First-occurrence-preserving deduplication, as `pd.unique` on the day keys. -/
def uniqueKeys (l : List ℕ) : List ℕ :=
  l.foldl (fun acc k => if k ∈ acc then acc else acc ++ [k]) []

/-- The per-day opening-window intervals built by `_first_window_mask`: for
each day present in the frame, the first in-session bar's time `t0` gives the
half-open interval `[t0, t0 + FIRST_WINDOW_MIN)`. -/
def first_window_intervals (cfg : Config) (bars : List Bar) : List (ℕ × ℕ) :=
  (uniqueKeys (bars.map (fun b => session_day_key b.time))).filterMap (fun day =>
    match (bars.filter (fun b =>
        decide (session_day_key b.time = day ∧ in_session cfg b.time))).head? with
    | none => none
    | some b => some (b.time, b.time + cfg.FIRST_WINDOW_MIN))

/-- `_first_window_mask` as a predicate on a timestamp: the union of the
per-day opening-window intervals. -/
def first_mask (cfg : Config) (bars : List Bar) (t : ℕ) : Bool :=
  (first_window_intervals cfg bars).any (fun p => decide (p.1 ≤ t ∧ t < p.2))

/-- The per-day position state of the `make_signals` loop: waiting for a
breakout, in a position (with the `moved_be` flag and the running
high-water/low-water mark), or closed (loop broken). -/
inductive DayState where
  | waiting : DayState
  | inpos : Trade → Bool → ℚ → DayState
  | closed : Trade → DayState
deriving DecidableEq, Repr

/-- The trade carried by a day state, if any. -/
def stTrade : DayState → Option Trade
  | .waiting => none
  | .inpos tr _ _ => some tr
  | .closed tr => some tr

/-- Lines 118-122 of `make_signals`: the one-shot breakeven ratchet for a
long, given the updated high-water mark.  The stop only ever moves to the
`max` of itself and `entry + LOCK_PROFIT_PIPS`. -/
def be_ratchet_long (cfg : Config) (inst : String) (tr : Trade) (moved_be : Bool)
    (high_water : ℚ) : Trade × Bool :=
  if moved_be = false ∧ tr.entry + pips_to_price cfg.BE_TRIGGER_PIPS inst ≤ high_water then
    ({ tr with sl := max tr.sl (tr.entry + pips_to_price cfg.LOCK_PROFIT_PIPS inst) }, true)
  else (tr, moved_be)

/-- Lines 137-141 of `make_signals`: the breakeven ratchet for a short,
mirror image (`min`, trigger below entry). -/
def be_ratchet_short (cfg : Config) (inst : String) (tr : Trade) (moved_be : Bool)
    (low_water : ℚ) : Trade × Bool :=
  if moved_be = false ∧ low_water ≤ tr.entry - pips_to_price cfg.BE_TRIGGER_PIPS inst then
    ({ tr with sl := min tr.sl (tr.entry - pips_to_price cfg.LOCK_PROFIT_PIPS inst) }, true)
  else (tr, moved_be)

/-- Lines 123-134 of `make_signals`: the exit checks for a long, the stop
check strictly before the target check; staying in position keeps the
(possibly ratcheted) trade, flag and water mark. -/
def exit_check_long (tr : Trade) (b : Bar) (moved_be : Bool) (high_water : ℚ) :
    DayState :=
  if b.low ≤ tr.sl then
    .closed { tr with exit := some tr.sl, exit_time := some b.time, exit_reason := some "SL" }
  else if tr.tp ≤ b.high then
    .closed { tr with exit := some tr.tp, exit_time := some b.time, exit_reason := some "TP" }
  else .inpos tr moved_be high_water

/-- Lines 142-153 of `make_signals`: the exit checks for a short, the stop
check (bar high reaches the stop) strictly before the target check. -/
def exit_check_short (tr : Trade) (b : Bar) (moved_be : Bool) (low_water : ℚ) :
    DayState :=
  if tr.sl ≤ b.high then
    .closed { tr with exit := some tr.sl, exit_time := some b.time, exit_reason := some "SL" }
  else if b.low ≤ tr.tp then
    .closed { tr with exit := some tr.tp, exit_time := some b.time, exit_reason := some "TP" }
  else .inpos tr moved_be low_water

/-- One iteration of the `for t, row in day_df.iterrows()` loop of
`make_signals`: entry detection while waiting (long trigger checked first),
then water-mark update, one-shot breakeven ratchet, and stop-before-target
exit checks while in a position.  `closed` is absorbing (the Python loop
breaks). -/
def step (cfg : Config) (inst : String) (long_trig short_trig : ℚ)
    (st : DayState) (b : Bar) : DayState :=
  match st with
  | .closed tr => .closed tr
  | .waiting =>
    if long_trig < b.close then
      .inpos { time := b.time, side := "long", entry := b.close,
               sl := b.close - pips_to_price cfg.SL_PIPS inst,
               tp := b.close + pips_to_price cfg.TP_PIPS inst } false b.high
    else if b.close < short_trig then
      .inpos { time := b.time, side := "short", entry := b.close,
               sl := b.close + pips_to_price cfg.SL_PIPS inst,
               tp := b.close - pips_to_price cfg.TP_PIPS inst } false b.low
    else .waiting
  | .inpos tr moved_be water =>
    if tr.side = "long" then
      let high_water := max water b.high
      let p := be_ratchet_long cfg inst tr moved_be high_water
      exit_check_long p.1 b p.2 high_water
    else
      let low_water := min water b.low
      let p := be_ratchet_short cfg inst tr moved_be low_water
      exit_check_short p.1 b p.2 low_water

/-- Maximum of a list of rationals (`Series.max`); 0 on the empty list, which
`make_signals` guards against. -/
def maxQ : List ℚ → ℚ
  | [] => 0
  | x :: xs => xs.foldl max x

/-- Minimum of a list of rationals (`Series.min`); 0 on the empty list. -/
def minQ : List ℚ → ℚ
  | [] => 0
  | x :: xs => xs.foldl min x

/-- The tail of one day's simulation in `make_signals`: run the bar loop from
`WAITING`, and if the day ends with the position still open, force-close it at
the last bar's close with reason `EOD` (lines 155-160). -/
def sim_day (cfg : Config) (inst : String) (long_trig short_trig : ℚ)
    (day_df : List Bar) : List Trade :=
  match day_df.foldl (step cfg inst long_trig short_trig) .waiting with
  | .waiting => []
  | .closed tr => [tr]
  | .inpos tr _ _ =>
    match day_df.getLast? with
    | some lb => [{ tr with exit := some lb.close, exit_time := some lb.time,
                            exit_reason := some "EOD" }]
    | none => []

/-- The body of the `for day in pd.unique(day_keys)` loop of `make_signals`:
the day's bars, its opening window, the range and triggers, then the bar loop. -/
def day_trades (cfg : Config) (inst : String) (bars : List Bar) (day : ℕ) :
    List Trade :=
  let day_df := bars.filter (fun b => decide (session_day_key b.time = day))
  if day_df.isEmpty then []
  else
    let fw := day_df.filter (fun b => first_mask cfg bars b.time)
    if fw.isEmpty then []
    else
      let buf := pips_to_price cfg.BUFFER_PIPS inst
      sim_day cfg inst (maxQ (fw.map Bar.high) + buf) (minQ (fw.map Bar.low) - buf) day_df

/-- `make_signals` from `baseline_rules.py`: restrict to in-session bars,
return the empty ledger on an empty frame, otherwise simulate each UTC day in
first-occurrence order and concatenate the closed trades. -/
def make_signals (cfg : Config) (bars0 : List Bar) (inst : String) : List Trade :=
  let bars := bars0.filter (fun b => decide (in_session cfg b.time))
  if bars.isEmpty then []
  else ((uniqueKeys (bars.map (fun b => session_day_key b.time))).map
          (day_trades cfg inst bars)).flatten

/-- `apply_costs` from `backtest.py`, with the module-level `SPREAD_PIPS` and
`SLIPPAGE_PIPS` constants passed explicitly: add spread plus slippage for a
`long` fill, subtract them otherwise. -/
def apply_costs (SPREAD_PIPS SLIPPAGE_PIPS : ℚ) (price : ℚ)
    (side instrument : String) : ℚ :=
  let spread := pips_to_price SPREAD_PIPS instrument
  let slip := pips_to_price SLIPPAGE_PIPS instrument
  if side = "long" then price + spread + slip else price - spread - slip

/-- The profit-factor value of the metrics record: a finite rational or the
`float("inf")` sentinel. -/
inductive PF where
  | fin : ℚ → PF
  | inf : PF
deriving DecidableEq, Repr

/-- The record returned by `metrics` in `backtest.py`. -/
structure Metrics where
  trades : ℕ
  pnl : ℚ
  sharpe : ℝ
  max_dd : ℚ
  hit : ℚ
  pf : PF

/-- Running sums of a list (`Series.cumsum`), starting from `s`. -/
def cumsumFrom (s : ℚ) : List ℚ → List ℚ
  | [] => []
  | x :: xs => (s + x) :: cumsumFrom (s + x) xs

/-- `Series.cumsum`: the running sums of the P&L column. -/
def cumsum (l : List ℚ) : List ℚ := cumsumFrom 0 l

/-- Running maxima continuing from a current maximum `m`. -/
def cummaxFrom (m : ℚ) : List ℚ → List ℚ
  | [] => []
  | x :: xs => max m x :: cummaxFrom (max m x) xs

/-- `Series.cummax`: the running maxima of the cumulative P&L curve. -/
def cummax : List ℚ → List ℚ
  | [] => []
  | x :: xs => x :: cummaxFrom x xs

/-- The Sharpe-like ratio of `metrics`: mean over (sample standard deviation
plus `1e-9`), scaled by `sqrt(252)`.  The sample variance divides by `n - 1`;
for a single trade, where pandas produces NaN, the rational division by zero
yields 0 (no claim touches this value). -/
noncomputable def sharpe (l : List ℚ) : ℝ :=
  let n : ℚ := (l.length : ℚ)
  let mean : ℚ := l.sum / n
  let var : ℚ := (l.map (fun x => (x - mean) ^ 2)).sum / (n - 1)
  ((mean : ℝ) / (Real.sqrt (var : ℝ) + 1 / 1000000000)) * Real.sqrt 252

/-- `metrics` from `backtest.py`, consuming the P&L column of the trade
frame: the zero record on an empty ledger, otherwise trade count, total P&L,
Sharpe-like ratio, max drawdown of the cumulative curve, hit rate with the
`max(1, ...)` denominator floor, and profit factor with the infinity sentinel
when there is no losing trade. -/
noncomputable def metrics (pnls : List ℚ) : Metrics :=
  if pnls = [] then
    { trades := 0, pnl := 0, sharpe := 0, max_dd := 0, hit := 0, pf := PF.fin 0 }
  else
    let curve := cumsum pnls
    let dd := List.zipWith (fun a b => a - b) curve (cummax curve)
    let wins := pnls.countP (fun x => decide (0 < x))
    let losses := pnls.countP (fun x => decide (x < 0))
    { trades := pnls.length
      pnl := pnls.sum
      sharpe := sharpe pnls
      max_dd := minQ dd
      hit := (wins : ℚ) / ((max 1 (wins + losses) : ℕ) : ℚ)
      pf :=
        if 0 < losses then
          PF.fin ((pnls.filter (fun x => decide (0 < x))).sum /
            |(pnls.filter (fun x => decide (x < 0))).sum|)
        else PF.inf }

/-- An example parameter set: the defaults of `baseline_rules.py` with an
all-day session starting at midnight. -/
def cfg0 : Config :=
  { BUFFER_PIPS := 1, SL_PIPS := 8, TP_PIPS := 12, BE_TRIGGER_PIPS := 6,
    LOCK_PROFIT_PIPS := 0, SESSION_START := 0, SESSION_END := 1439,
    FIRST_WINDOW_MIN := 30 }

/-- An example day of bars: the opening window sets range high 1.105 and low
1.1, the 09:30 bar closes above the long trigger 1.1051, and the next bar's
low touches the (by then ratcheted) stop. -/
def bars0 : List Bar :=
  [ { time := 0, open' := 11/10, high := 1105/1000, low := 11/10, close := 1102/1000 },
    { time := 30, open' := 1105/1000, high := 1107/1000, low := 1104/1000, close := 11062/10000 },
    { time := 35, open' := 11062/10000, high := 1106/1000, low := 1105/1000, close := 11051/10000 } ]

/-- The trade that `make_signals cfg0 bars0 "EUR_USD"` emits. -/
def trade0 : Trade :=
  { time := 30, side := "long", entry := 11062/10000, sl := 11062/10000,
    tp := 11074/10000, exit := some (11062/10000), exit_time := some 35,
    exit_reason := some "SL" }

/-- The invariant carried by a day's state machine, relative to the set `ts`
of bar timestamps of the day: any carried trade entered at one of the day's
bars, an open trade has no exit data, and a closed trade has exit price,
exit time, and an `SL` or `TP` reason (the `EOD` reason is added by
`sim_day`, outside the loop). -/
def dayInv (ts : List ℕ) : DayState → Prop
  | .waiting => True
  | .inpos tr _ _ => tr.time ∈ ts ∧ tr.exit = none ∧ tr.exit_time = none ∧ tr.exit_reason = none
  | .closed tr => tr.time ∈ ts ∧ (∃ p, tr.exit = some p) ∧ (∃ t, tr.exit_time = some t) ∧
      (tr.exit_reason = some "SL" ∨ tr.exit_reason = some "TP")

lemma be_ratchet_long_base (cfg : Config) (inst : String) (tr : Trade)
    (m : Bool) (hw : ℚ) :
    ∃ s, (be_ratchet_long cfg inst tr m hw).1 = { tr with sl := s } ∧ tr.sl ≤ s ∧
      (m = true → s = tr.sl ∧ (be_ratchet_long cfg inst tr m hw).2 = true) := by
  unfold be_ratchet_long
  split_ifs with h
  · exact ⟨max tr.sl _, rfl, le_max_left _ _, fun hm => absurd h.1 (by simp [hm])⟩
  · exact ⟨tr.sl, rfl, le_refl _, fun hm => ⟨rfl, hm⟩⟩

lemma be_ratchet_short_base (cfg : Config) (inst : String) (tr : Trade)
    (m : Bool) (lw : ℚ) :
    ∃ s, (be_ratchet_short cfg inst tr m lw).1 = { tr with sl := s } ∧ s ≤ tr.sl ∧
      (m = true → s = tr.sl ∧ (be_ratchet_short cfg inst tr m lw).2 = true) := by
  unfold be_ratchet_short
  split_ifs with h
  · exact ⟨min tr.sl _, rfl, min_le_left _ _, fun hm => absurd h.1 (by simp [hm])⟩
  · exact ⟨tr.sl, rfl, le_refl _, fun hm => ⟨rfl, hm⟩⟩

lemma exit_check_long_shape (tr : Trade) (b : Bar) (m : Bool) (hw : ℚ) :
    exit_check_long tr b m hw = .inpos tr m hw ∨
    (∃ tr', exit_check_long tr b m hw = .closed tr' ∧
      tr'.time = tr.time ∧ tr'.side = tr.side ∧ tr'.entry = tr.entry ∧
      tr'.tp = tr.tp ∧ tr'.sl = tr.sl ∧
      (∃ p, tr'.exit = some p) ∧ tr'.exit_time = some b.time ∧
      (tr'.exit_reason = some "SL" ∨ tr'.exit_reason = some "TP")) := by
  unfold exit_check_long
  split_ifs with h1 h2
  · exact Or.inr ⟨_, rfl, rfl, rfl, rfl, rfl, rfl, ⟨_, rfl⟩, rfl, Or.inl rfl⟩
  · exact Or.inr ⟨_, rfl, rfl, rfl, rfl, rfl, rfl, ⟨_, rfl⟩, rfl, Or.inr rfl⟩
  · exact Or.inl rfl

lemma exit_check_short_shape (tr : Trade) (b : Bar) (m : Bool) (lw : ℚ) :
    exit_check_short tr b m lw = .inpos tr m lw ∨
    (∃ tr', exit_check_short tr b m lw = .closed tr' ∧
      tr'.time = tr.time ∧ tr'.side = tr.side ∧ tr'.entry = tr.entry ∧
      tr'.tp = tr.tp ∧ tr'.sl = tr.sl ∧
      (∃ p, tr'.exit = some p) ∧ tr'.exit_time = some b.time ∧
      (tr'.exit_reason = some "SL" ∨ tr'.exit_reason = some "TP")) := by
  unfold exit_check_short
  split_ifs with h1 h2
  · exact Or.inr ⟨_, rfl, rfl, rfl, rfl, rfl, rfl, ⟨_, rfl⟩, rfl, Or.inl rfl⟩
  · exact Or.inr ⟨_, rfl, rfl, rfl, rfl, rfl, rfl, ⟨_, rfl⟩, rfl, Or.inr rfl⟩
  · exact Or.inl rfl

lemma step_inpos_shape (cfg : Config) (inst : String) (long_trig short_trig : ℚ)
    (tr : Trade) (m : Bool) (w : ℚ) (b : Bar) :
    (∃ tr' m' w', step cfg inst long_trig short_trig (.inpos tr m w) b = .inpos tr' m' w' ∧
      tr'.time = tr.time ∧ tr'.side = tr.side ∧ tr'.entry = tr.entry ∧ tr'.tp = tr.tp ∧
      tr'.exit = tr.exit ∧ tr'.exit_time = tr.exit_time ∧ tr'.exit_reason = tr.exit_reason ∧
      (tr.side = "long" → tr.sl ≤ tr'.sl) ∧ (tr.side ≠ "long" → tr'.sl ≤ tr.sl) ∧
      (m = true → m' = true ∧ tr'.sl = tr.sl)) ∨
    (∃ tr', step cfg inst long_trig short_trig (.inpos tr m w) b = .closed tr' ∧
      tr'.time = tr.time ∧ tr'.side = tr.side ∧ tr'.entry = tr.entry ∧ tr'.tp = tr.tp ∧
      (∃ p, tr'.exit = some p) ∧ tr'.exit_time = some b.time ∧
      (tr'.exit_reason = some "SL" ∨ tr'.exit_reason = some "TP") ∧
      (tr.side = "long" → tr.sl ≤ tr'.sl) ∧ (tr.side ≠ "long" → tr'.sl ≤ tr.sl) ∧
      (m = true → tr'.sl = tr.sl)) := by
  by_cases hside : tr.side = "long"
  · obtain ⟨s, h1, hs, hm⟩ := be_ratchet_long_base cfg inst tr m (max w b.high)
    have hstep : step cfg inst long_trig short_trig (.inpos tr m w) b =
        exit_check_long { tr with sl := s } b
          (be_ratchet_long cfg inst tr m (max w b.high)).2 (max w b.high) := by
      simp only [step, hside, if_pos, h1]
    rcases exit_check_long_shape { tr with sl := s } b
        (be_ratchet_long cfg inst tr m (max w b.high)).2 (max w b.high) with
      he | ⟨tr', he, ht, hsd, hen, htp, hsl, hex, hext, her⟩
    · refine Or.inl ⟨_, _, _, hstep.trans he, rfl, rfl, rfl, rfl, rfl, rfl, rfl,
        fun _ => hs, fun hc => absurd hside hc, fun hmt => ⟨(hm hmt).2, (hm hmt).1⟩⟩
    · refine Or.inr ⟨tr', hstep.trans he, ht, hsd, hen, htp, hex, hext, her,
        fun _ => hsl ▸ hs, fun hc => absurd hside hc, fun hmt => hsl.trans (hm hmt).1⟩
  · obtain ⟨s, h1, hs, hm⟩ := be_ratchet_short_base cfg inst tr m (min w b.low)
    have hstep : step cfg inst long_trig short_trig (.inpos tr m w) b =
        exit_check_short { tr with sl := s } b
          (be_ratchet_short cfg inst tr m (min w b.low)).2 (min w b.low) := by
      simp [step, hside, h1]
    rcases exit_check_short_shape { tr with sl := s } b
        (be_ratchet_short cfg inst tr m (min w b.low)).2 (min w b.low) with
      he | ⟨tr', he, ht, hsd, hen, htp, hsl, hex, hext, her⟩
    · refine Or.inl ⟨_, _, _, hstep.trans he, rfl, rfl, rfl, rfl, rfl, rfl, rfl,
        fun hc => absurd hc hside, fun _ => hs, fun hmt => ⟨(hm hmt).2, (hm hmt).1⟩⟩
    · refine Or.inr ⟨tr', hstep.trans he, ht, hsd, hen, htp, hex, hext, her,
        fun hc => absurd hc hside, fun _ => hsl ▸ hs, fun hmt => hsl.trans (hm hmt).1⟩

lemma step_waiting_shape (cfg : Config) (inst : String) (long_trig short_trig : ℚ)
    (b : Bar) :
    step cfg inst long_trig short_trig .waiting b = .waiting ∨
    (∃ tr w', step cfg inst long_trig short_trig .waiting b = .inpos tr false w' ∧
      tr.time = b.time ∧ (tr.side = "long" ∨ tr.side = "short") ∧
      tr.exit = none ∧ tr.exit_time = none ∧ tr.exit_reason = none) := by
  unfold step
  split_ifs with h1 h2
  · exact Or.inr ⟨_, _, rfl, rfl, Or.inl rfl, rfl, rfl, rfl⟩
  · exact Or.inr ⟨_, _, rfl, rfl, Or.inr rfl, rfl, rfl, rfl⟩
  · exact Or.inl rfl

lemma step_closed (cfg : Config) (inst : String) (long_trig short_trig : ℚ)
    (tr : Trade) (b : Bar) :
    step cfg inst long_trig short_trig (.closed tr) b = .closed tr := rfl

lemma foldl_step_closed (cfg : Config) (inst : String) (long_trig short_trig : ℚ)
    (tr : Trade) (l : List Bar) :
    l.foldl (step cfg inst long_trig short_trig) (.closed tr) = .closed tr := by
  induction l with
  | nil => rfl
  | cons b l ih => simpa [step_closed] using ih

lemma dayInv_step (cfg : Config) (inst : String) (long_trig short_trig : ℚ)
    (ts : List ℕ) (st : DayState) (b : Bar) (hb : b.time ∈ ts)
    (h : dayInv ts st) : dayInv ts (step cfg inst long_trig short_trig st b) := by
  cases st with
  | waiting =>
    rcases step_waiting_shape cfg inst long_trig short_trig b with
      h1 | ⟨tr, w', h1, ht, _, he, het, her⟩
    · rw [h1]; trivial
    · rw [h1]; exact ⟨ht ▸ hb, he, het, her⟩
  | inpos tr m w =>
    obtain ⟨htm, hex, hext, her⟩ := h
    rcases step_inpos_shape cfg inst long_trig short_trig tr m w b with
      ⟨tr', m', w', h1, ht, _, _, _, he', het', her', _, _, _⟩ |
      ⟨tr', h1, ht, _, _, _, he', het', her', _, _, _⟩
    · rw [h1]; exact ⟨ht ▸ htm, he'.trans hex, het'.trans hext, her'.trans her⟩
    · rw [h1]; exact ⟨ht ▸ htm, he', ⟨_, het'⟩, her'⟩
  | closed tr => rw [step_closed]; exact h

lemma dayInv_foldl (cfg : Config) (inst : String) (long_trig short_trig : ℚ)
    (ts : List ℕ) (l : List Bar) (st : DayState)
    (hl : ∀ b ∈ l, b.time ∈ ts) (h : dayInv ts st) :
    dayInv ts (l.foldl (step cfg inst long_trig short_trig) st) := by
  induction l generalizing st with
  | nil => exact h
  | cons b l ih =>
    exact ih _ (fun x hx => hl x (List.mem_cons_of_mem _ hx))
      (dayInv_step cfg inst long_trig short_trig ts st b (hl b (List.mem_cons_self _ _)) h)

lemma sim_day_length (cfg : Config) (inst : String) (long_trig short_trig : ℚ)
    (day_df : List Bar) :
    (sim_day cfg inst long_trig short_trig day_df).length ≤ 1 := by
  unfold sim_day
  rcases day_df.foldl (step cfg inst long_trig short_trig) .waiting with _ | ⟨tr, m, w⟩ | tr
  · simp
  · rcases day_df.getLast? with _ | lb <;> simp
  · simp

lemma sim_day_mem (cfg : Config) (inst : String) (long_trig short_trig : ℚ)
    (day_df : List Bar) (tr : Trade)
    (h : tr ∈ sim_day cfg inst long_trig short_trig day_df) :
    tr.time ∈ day_df.map Bar.time ∧
    (∃ p, tr.exit = some p) ∧ (∃ t, tr.exit_time = some t) ∧
    (tr.exit_reason = some "SL" ∨ tr.exit_reason = some "TP" ∨ tr.exit_reason = some "EOD") := by
  have hinv := dayInv_foldl cfg inst long_trig short_trig (day_df.map Bar.time) day_df
    .waiting (fun b hb => List.mem_map_of_mem _ hb) trivial
  unfold sim_day at h
  rcases hfold : day_df.foldl (step cfg inst long_trig short_trig) .waiting with
    _ | ⟨tr0, m0, w0⟩ | tr0 <;> rw [hfold] at h hinv
  · simp at h
  · rcases hlast : day_df.getLast? with _ | lb <;> rw [hlast] at h
    · simp at h
    · obtain ⟨htm, _, _, _⟩ := hinv
      simp at h
      subst h
      exact ⟨htm, ⟨_, rfl⟩, ⟨_, rfl⟩, Or.inr (Or.inr rfl)⟩
  · obtain ⟨htm, hex, hext, her⟩ := hinv
    simp at h
    subst h
    exact ⟨htm, hex, hext, her.imp id Or.inl⟩

lemma day_trades_length (cfg : Config) (inst : String) (bars : List Bar) (day : ℕ) :
    (day_trades cfg inst bars day).length ≤ 1 := by
  simp only [day_trades]
  split_ifs <;> simp [sim_day_length]

lemma day_trades_mem (cfg : Config) (inst : String) (bars : List Bar) (day : ℕ)
    (tr : Trade) (h : tr ∈ day_trades cfg inst bars day) :
    session_day_key tr.time = day ∧
    (∃ p, tr.exit = some p) ∧ (∃ t, tr.exit_time = some t) ∧
    (tr.exit_reason = some "SL" ∨ tr.exit_reason = some "TP" ∨ tr.exit_reason = some "EOD") := by
  simp only [day_trades] at h
  split_ifs at h
  · simp at h
  · simp at h
  · obtain ⟨htm, rest⟩ := sim_day_mem cfg inst _ _ _ tr h
    refine ⟨?_, rest⟩
    rcases List.mem_map.1 htm with ⟨b, hb, hbt⟩
    have := (List.mem_filter.1 hb).2
    simp at this
    rw [← hbt, this]

lemma uniqueKeys_nodup_aux (l : List ℕ) : ∀ acc : List ℕ, acc.Nodup →
    (l.foldl (fun acc k => if k ∈ acc then acc else acc ++ [k]) acc).Nodup := by
  induction l with
  | nil => exact fun acc h => h
  | cons k l ih =>
    intro acc h
    simp only [List.foldl_cons]
    by_cases hk : k ∈ acc
    · rw [if_pos hk]; exact ih acc h
    · rw [if_neg hk]
      refine ih _ ?_
      simp [List.nodup_append, h, hk, List.disjoint_singleton]

lemma uniqueKeys_nodup (l : List ℕ) : (uniqueKeys l).Nodup :=
  uniqueKeys_nodup_aux l [] List.nodup_nil

lemma countP_flatten_le_one (f : ℕ → List Trade) (d : ℕ) (days : List ℕ)
    (hnd : days.Nodup)
    (hlen : ∀ day, (f day).length ≤ 1)
    (hkey : ∀ day, ∀ tr ∈ f day, session_day_key tr.time = day) :
    (days.map f).flatten.countP (fun tr => decide (session_day_key tr.time = d)) ≤ 1 := by
  induction days with
  | nil => simp
  | cons day rest ih =>
    simp only [List.map_cons, List.flatten_cons, List.countP_append]
    have hrest := ih hnd.of_cons
    by_cases hd : day = d
    · subst hd
      have hz : (rest.map f).flatten.countP
          (fun tr => decide (session_day_key tr.time = day)) = 0 := by
        rw [List.countP_eq_zero]
        intro tr htr
        rcases List.mem_flatten.1 htr with ⟨l', hl', htr'⟩
        rcases List.mem_map.1 hl' with ⟨day', hday', rfl⟩
        have hk := hkey day' tr htr'
        have hne : day' ≠ day := fun he => (List.nodup_cons.1 hnd).1 (he ▸ hday')
        simp [hk, hne]
      rw [hz]
      have hle := @List.countP_le_length Trade
        (fun tr => decide (session_day_key tr.time = day)) (f day)
      have hld := hlen day
      omega
    · have hz : (f day).countP (fun tr => decide (session_day_key tr.time = d)) = 0 := by
        rw [List.countP_eq_zero]
        intro tr htr
        have hk := hkey day tr htr
        simp [hk, hd]
      rw [hz]
      simpa using hrest

lemma sl_monotone_aux (cfg : Config) (inst : String) (long_trig short_trig : ℚ)
    (l : List Bar) : ∀ (tr : Trade) (m : Bool) (w : ℚ) (tr'' : Trade),
    stTrade (l.foldl (step cfg inst long_trig short_trig) (.inpos tr m w)) = some tr'' →
    tr''.side = tr.side ∧ (tr.side = "long" → tr.sl ≤ tr''.sl) ∧
    (tr.side ≠ "long" → tr''.sl ≤ tr.sl) ∧ (m = true → tr''.sl = tr.sl) := by
  induction l with
  | nil =>
    intro tr m w tr'' h
    simp [stTrade] at h
    subst h
    exact ⟨rfl, fun _ => le_refl _, fun _ => le_refl _, fun _ => rfl⟩
  | cons b l ih =>
    intro tr m w tr'' h
    simp only [List.foldl_cons] at h
    rcases step_inpos_shape cfg inst long_trig short_trig tr m w b with
      ⟨tr', m', w', heq, _, hside, _, _, _, _, _, hlong, hshort, hmoved⟩ |
      ⟨tr', heq, _, hside, _, _, _, _, _, hlong, hshort, hmoved⟩
    · rw [heq] at h
      obtain ⟨hside'', hlong'', hshort'', hmoved''⟩ := ih tr' m' w' tr'' h
      refine ⟨hside''.trans hside, ?_, ?_, ?_⟩
      · exact fun hl => le_trans (hlong hl) (hlong'' (hside.trans hl))
      · exact fun hl => le_trans (hshort'' (fun hc => hl (hside ▸ hc))) (hshort hl)
      · intro hm
        obtain ⟨hm', hsl⟩ := hmoved hm
        rw [hmoved'' hm', hsl]
    · rw [heq, foldl_step_closed] at h
      simp [stTrade] at h
      subst h
      exact ⟨hside, hlong, hshort, hmoved⟩

/-- C9: `pips_to_price` returns `pips * 0.01` exactly when the instrument
identifier carries the `_JPY` quote-currency suffix, and falls back to the
non-JPY pip size `0.0001` for every other identifier, recognized or not. -/
theorem pips_to_price_pip_size (pips : ℚ) (instrument : String) :
    (ends_with_jpy instrument = true → pips_to_price pips instrument = pips * (1 / 100)) ∧
    (ends_with_jpy instrument = false → pips_to_price pips instrument = pips * (1 / 10000)) := by
  unfold pips_to_price
  constructor <;> intro h <;> simp [h]

/-- Witness for `pips_to_price_pip_size`: a JPY-quoted instrument and an
unrecognized identifier, both evaluated concretely. -/
theorem pips_to_price_pip_size_witness :
    pips_to_price 5 "USD_JPY" = 5 * (1 / 100) ∧
    pips_to_price 5 "SOMETHING" = 5 * (1 / 10000) :=
  ⟨(pips_to_price_pip_size 5 "USD_JPY").1 (by decide),
   (pips_to_price_pip_size 5 "SOMETHING").2 (by decide)⟩

/-- C10: `apply_costs` adds spread plus slippage exactly when the side is the
string `long`, and subtracts them for every other side string, so any
unrecognized side is treated as a sell fill. -/
theorem apply_costs_side_cases (SPREAD_PIPS SLIPPAGE_PIPS price : ℚ)
    (side instrument : String) :
    (side = "long" →
      apply_costs SPREAD_PIPS SLIPPAGE_PIPS price side instrument =
        price + pips_to_price SPREAD_PIPS instrument + pips_to_price SLIPPAGE_PIPS instrument) ∧
    (side ≠ "long" →
      apply_costs SPREAD_PIPS SLIPPAGE_PIPS price side instrument =
        price - pips_to_price SPREAD_PIPS instrument - pips_to_price SLIPPAGE_PIPS instrument) := by
  unfold apply_costs
  constructor <;> intro h <;> simp [h]

/-- Witness for `apply_costs_side_cases`: the `long` side and an unrecognized
side string, at the default spread and slippage. -/
theorem apply_costs_side_cases_witness :
    apply_costs (8/10) (2/10) 1 "long" "EUR_USD" =
      1 + pips_to_price (8/10) "EUR_USD" + pips_to_price (2/10) "EUR_USD" ∧
    apply_costs (8/10) (2/10) 1 "hold" "EUR_USD" =
      1 - pips_to_price (8/10) "EUR_USD" - pips_to_price (2/10) "EUR_USD" :=
  ⟨(apply_costs_side_cases (8/10) (2/10) 1 "long" "EUR_USD").1 rfl,
   (apply_costs_side_cases (8/10) (2/10) 1 "hold" "EUR_USD").2 (by decide)⟩

/-- C6: applying the cost model with one side and then with the opposite side
to the result reproduces the original raw price exactly, for every price,
instrument, and spread/slippage constants. -/
theorem apply_costs_round_trip (SPREAD_PIPS SLIPPAGE_PIPS price : ℚ)
    (instrument : String) :
    apply_costs SPREAD_PIPS SLIPPAGE_PIPS
        (apply_costs SPREAD_PIPS SLIPPAGE_PIPS price "long" instrument)
        "short" instrument = price ∧
    apply_costs SPREAD_PIPS SLIPPAGE_PIPS
        (apply_costs SPREAD_PIPS SLIPPAGE_PIPS price "short" instrument)
        "long" instrument = price := by
  unfold apply_costs
  have h1 : ("short" : String) ≠ "long" := by decide
  simp [h1]
  constructor <;> ring

/-- C8: `metrics` on the empty ledger is exactly the zero-valued record, with
profit factor the finite 0 (not the infinity sentinel). -/
theorem metrics_empty :
    metrics [] =
      { trades := 0, pnl := 0, sharpe := 0, max_dd := 0, hit := 0, pf := PF.fin 0 } := by
  simp [metrics]

/-- C7: on a non-empty ledger the profit factor is the sum of the strictly
positive P&Ls over the absolute sum of the strictly negative ones when some
trade lost, and the positive-infinity sentinel when no trade lost. -/
theorem metrics_pf_cases (l : List ℚ) (h : l ≠ []) :
    ((∃ x ∈ l, x < 0) →
      (metrics l).pf =
        PF.fin ((l.filter (fun x => decide (0 < x))).sum /
          |(l.filter (fun x => decide (x < 0))).sum|)) ∧
    ((∀ x ∈ l, ¬x < 0) → (metrics l).pf = PF.inf) := by
  unfold metrics
  rw [if_neg h]
  constructor
  · rintro ⟨x, hx, hneg⟩
    have hpos : 0 < l.countP (fun x => decide (x < 0)) :=
      List.countP_pos_iff.2 ⟨x, hx, by simpa using hneg⟩
    simp [hpos]
  · intro hall
    have hzero : l.countP (fun x => decide (x < 0)) = 0 :=
      List.countP_eq_zero.2 (fun a ha => by simpa using hall a ha)
    simp [hzero]

/-- Witness for `metrics_pf_cases`: a ledger with a losing trade has the
finite ratio, an all-positive ledger has the infinity sentinel. -/
theorem metrics_pf_cases_witness :
    (metrics [1, -2]).pf = PF.fin (1 / 2) ∧ (metrics [1, 2]).pf = PF.inf := by
  constructor
  · have h := (metrics_pf_cases [1, -2] (by decide)).1 ⟨-2, by norm_num, by norm_num⟩
    rw [h]
    norm_num [List.filter]
  · exact (metrics_pf_cases [1, 2] (by decide)).2 (by norm_num)

lemma make_signals_cfg0 : make_signals cfg0 bars0 "EUR_USD" = [trade0] := by
  norm_num +decide [make_signals, day_trades, sim_day, step, be_ratchet_long,
    be_ratchet_short, exit_check_long, exit_check_short, maxQ, minQ, first_mask,
    first_window_intervals, uniqueKeys, in_session, session_day_key,
    pips_to_price, ends_with_jpy, cfg0, bars0, trade0, List.filter, List.foldl,
    List.isSuffixOf]

/-- C5: a price series that is empty, or all of whose bars fall outside the
configured session window, yields the empty ledger. -/
theorem make_signals_out_of_session (cfg : Config) (bars : List Bar) (inst : String)
    (h : ∀ b ∈ bars, ¬in_session cfg b.time) :
    make_signals cfg bars inst = [] := by
  unfold make_signals
  have hf : bars.filter (fun b => decide (in_session cfg b.time)) = [] :=
    List.filter_eq_nil_iff.2 (fun b hb => by simpa using h b hb)
  simp [hf]

/-- Witness for `make_signals_out_of_session`: a single pre-session bar under
the default 07:00-17:00 session (the empty series satisfies the hypothesis
vacuously). -/
theorem make_signals_out_of_session_witness :
    make_signals { cfg0 with SESSION_START := 420, SESSION_END := 1020 }
      [{ time := 0, open' := 1, high := 1, low := 1, close := 1 }] "EUR_USD" = [] :=
  make_signals_out_of_session _ _ _ (by decide)

/-- C3: the ledger returned by `make_signals` holds at most one trade per UTC
calendar day, and every trade in it is closed: it has an exit price, an exit
timestamp, and an exit reason that is exactly one of `SL`, `TP`, `EOD`. -/
theorem make_signals_one_per_day_closed (cfg : Config) (bars : List Bar)
    (inst : String) (d : ℕ) :
    ((make_signals cfg bars inst).countP
        (fun tr => decide (session_day_key tr.time = d)) ≤ 1) ∧
    ∀ tr ∈ make_signals cfg bars inst,
      (∃ p, tr.exit = some p) ∧ (∃ t, tr.exit_time = some t) ∧
      (tr.exit_reason = some "SL" ∨ tr.exit_reason = some "TP" ∨
        tr.exit_reason = some "EOD") := by
  unfold make_signals
  by_cases hb : (bars.filter (fun b => decide (in_session cfg b.time))).isEmpty
  · simp [hb]
  · simp only [hb, Bool.false_eq_true, if_false]
    constructor
    · exact countP_flatten_le_one _ d _ (uniqueKeys_nodup _)
        (fun day => day_trades_length cfg inst _ day)
        (fun day tr h => (day_trades_mem cfg inst _ day tr h).1)
    · intro tr htr
      rcases List.mem_flatten.1 htr with ⟨l', hl', htr'⟩
      rcases List.mem_map.1 hl' with ⟨day, _, rfl⟩
      exact (day_trades_mem cfg inst _ day tr htr').2

/-- Witness for `make_signals_one_per_day_closed`: the example run emits one
trade on day 0 and it is closed with reason `SL`. -/
theorem make_signals_one_per_day_closed_witness :
    ((make_signals cfg0 bars0 "EUR_USD").countP
        (fun tr => decide (session_day_key tr.time = 0)) ≤ 1) ∧
    (∃ p, trade0.exit = some p) ∧ (∃ t, trade0.exit_time = some t) ∧
    (trade0.exit_reason = some "SL" ∨ trade0.exit_reason = some "TP" ∨
      trade0.exit_reason = some "EOD") :=
  ⟨(make_signals_one_per_day_closed cfg0 bars0 "EUR_USD" 0).1,
   (make_signals_one_per_day_closed cfg0 bars0 "EUR_USD" 0).2 trade0
     (by rw [make_signals_cfg0]; exact List.mem_singleton.2 rfl)⟩

/-- C2: over an open trade's remaining bars, the stop only tightens — it is
non-decreasing for a long and non-increasing for a short — and once the
breakeven flag is set the stop never changes again, so the ratchet fires at
most once per trade. -/
theorem sl_never_loosens (cfg : Config) (inst : String) (long_trig short_trig : ℚ)
    (l : List Bar) (tr : Trade) (m : Bool) (w : ℚ) (tr' : Trade)
    (h : stTrade (l.foldl (step cfg inst long_trig short_trig) (.inpos tr m w)) =
      some tr') :
    (tr.side = "long" → tr.sl ≤ tr'.sl) ∧
    (tr.side = "short" → tr'.sl ≤ tr.sl) ∧
    (m = true → tr'.sl = tr.sl) := by
  obtain ⟨_, hlong, hshort, hmoved⟩ :=
    sl_monotone_aux cfg inst long_trig short_trig l tr m w tr' h
  exact ⟨hlong, fun hs => hshort (by simp [hs]), hmoved⟩

/-- Witness for `sl_never_loosens`: running the example's open long over the
bar that ratchets the stop to breakeven and then exits, the stop only rose
(from 1.1054 to 1.1062). -/
theorem sl_never_loosens_witness : ((11054 : ℚ)/10000 ≤ trade0.sl) :=
  (sl_never_loosens cfg0 "EUR_USD" (11051/10000) (10990/10000)
    [{ time := 35, open' := 11062/10000, high := 1106/1000, low := 1105/1000,
       close := 11051/10000 }]
    { time := 30, side := "long", entry := 11062/10000, sl := 11054/10000,
      tp := 11074/10000 } false (1107/1000) trade0
    (by norm_num +decide [step, be_ratchet_long, exit_check_long, stTrade,
        pips_to_price, ends_with_jpy, cfg0, trade0, List.isSuffixOf])).1 rfl

/-- C1: on any bar processed while a trade is open, if the bar's range spans
both the current stop (post-ratchet, as the code evaluates it) and the
take-profit, the step closes the trade at the stop price with reason `SL`,
never `TP`; mirrored for a short. -/
theorem sl_checked_before_tp (cfg : Config) (inst : String)
    (long_trig short_trig : ℚ) (tr : Trade) (moved_be : Bool) (water : ℚ) (b : Bar) :
    (tr.side = "long" →
      b.low ≤ (be_ratchet_long cfg inst tr moved_be (max water b.high)).1.sl →
      tr.tp ≤ b.high →
      step cfg inst long_trig short_trig (.inpos tr moved_be water) b =
        .closed { (be_ratchet_long cfg inst tr moved_be (max water b.high)).1 with
          exit := some (be_ratchet_long cfg inst tr moved_be (max water b.high)).1.sl,
          exit_time := some b.time, exit_reason := some "SL" }) ∧
    (tr.side = "short" →
      (be_ratchet_short cfg inst tr moved_be (min water b.low)).1.sl ≤ b.high →
      b.low ≤ tr.tp →
      step cfg inst long_trig short_trig (.inpos tr moved_be water) b =
        .closed { (be_ratchet_short cfg inst tr moved_be (min water b.low)).1 with
          exit := some (be_ratchet_short cfg inst tr moved_be (min water b.low)).1.sl,
          exit_time := some b.time, exit_reason := some "SL" }) := by
  constructor
  · intro hside hsl htp
    obtain ⟨s, h1, _, _⟩ := be_ratchet_long_base cfg inst tr moved_be (max water b.high)
    have hstep : step cfg inst long_trig short_trig (.inpos tr moved_be water) b =
        exit_check_long (be_ratchet_long cfg inst tr moved_be (max water b.high)).1 b
          (be_ratchet_long cfg inst tr moved_be (max water b.high)).2
          (max water b.high) := by
      simp [step, hside]
    rw [hstep]
    unfold exit_check_long
    rw [if_pos hsl]
  · intro hside hsl htp
    have hlong : tr.side ≠ "long" := by simp [hside]
    obtain ⟨s, h1, _, _⟩ := be_ratchet_short_base cfg inst tr moved_be (min water b.low)
    have hstep : step cfg inst long_trig short_trig (.inpos tr moved_be water) b =
        exit_check_short (be_ratchet_short cfg inst tr moved_be (min water b.low)).1 b
          (be_ratchet_short cfg inst tr moved_be (min water b.low)).2
          (min water b.low) := by
      simp [step, hlong]
    rw [hstep]
    unfold exit_check_short
    rw [if_pos hsl]

/-- Witness for `sl_checked_before_tp`: a bar whose low touches the stop and
whose high exceeds the take-profit closes the example long at the stop with
reason `SL`. -/
theorem sl_checked_before_tp_witness :
    step cfg0 "EUR_USD" (11051/10000) (10990/10000)
      (.inpos { time := 30, side := "long", entry := 11062/10000, sl := 11054/10000,
                tp := 11074/10000 } true (1107/1000))
      { time := 35, open' := 1, high := 1108/1000, low := 1105/1000, close := 1 } =
    .closed { time := 30, side := "long", entry := 11062/10000, sl := 11054/10000,
              tp := 11074/10000, exit := some (11054/10000), exit_time := some 35,
              exit_reason := some "SL" } := by
  have h := (sl_checked_before_tp cfg0 "EUR_USD" (11051/10000) (10990/10000)
      { time := 30, side := "long", entry := 11062/10000, sl := 11054/10000,
        tp := 11074/10000 } true (1107/1000)
      { time := 35, open' := 1, high := 1108/1000, low := 1105/1000, close := 1 }).1
    rfl (by norm_num [be_ratchet_long]) (by norm_num)
  rw [h]
  norm_num [be_ratchet_long]

/-- C4: if a day's bar loop ends with the position still open (a breakout
entry happened and no stop or target exit fired), `sim_day` emits exactly one
trade, force-closed at the day's last bar's close, with that bar's timestamp
and reason `EOD`. -/
theorem eod_forced_close (cfg : Config) (inst : String) (long_trig short_trig : ℚ)
    (day_df : List Bar) (tr : Trade) (m : Bool) (w : ℚ)
    (h : day_df.foldl (step cfg inst long_trig short_trig) .waiting = .inpos tr m w) :
    ∃ lb, day_df.getLast? = some lb ∧
      sim_day cfg inst long_trig short_trig day_df =
        [{ tr with exit := some lb.close, exit_time := some lb.time,
                   exit_reason := some "EOD" }] := by
  have hne : day_df ≠ [] := by
    rintro rfl
    exact absurd h (by simp)
  refine ⟨day_df.getLast hne, List.getLast?_eq_getLast _ hne, ?_⟩
  unfold sim_day
  rw [h, List.getLast?_eq_getLast _ hne]

/-- Witness for `eod_forced_close`: a single breakout bar with no later exit
leaves the position open, and the day is force-closed at that bar's close
with reason `EOD`. -/
theorem eod_forced_close_witness :
    ∃ lb, ([({ time := 100, open' := 2, high := 2, low := 2, close := 2 } : Bar)]).getLast? =
        some lb ∧
      sim_day cfg0 "EUR_USD" 1 0
          [{ time := 100, open' := 2, high := 2, low := 2, close := 2 }] =
        [{ time := 100, side := "long", entry := 2, sl := 2 - pips_to_price 8 "EUR_USD",
           tp := 2 + pips_to_price 12 "EUR_USD", exit := some lb.close,
           exit_time := some lb.time, exit_reason := some "EOD" }] :=
  eod_forced_close cfg0 "EUR_USD" 1 0
    [{ time := 100, open' := 2, high := 2, low := 2, close := 2 }]
    { time := 100, side := "long", entry := 2, sl := 2 - pips_to_price 8 "EUR_USD",
      tp := 2 + pips_to_price 12 "EUR_USD" } false 2
    (by norm_num +decide [step, pips_to_price, ends_with_jpy, cfg0, List.isSuffixOf])
